import Mathlib

/-!
Verification development for the fsdiff tool of the jsn repository.

This file gives a shallow embedding, in Lean 4, of the scanner, path
filter, differ and root-digest code under cmd/fsdiff, and proves the
central functional properties of that code: the fast-path and brute-force
behaviour of Differ.Compare, the record equality rule, the partition
invariant of diff results, diff symmetry, order-independence of the root
digest, the error-handling discipline of the scanner, path-filter
defaults, change-tag generation, and severity scoring of critical
changes.

Modelling conventions:
  - Go strings are modelled as Lean String values; byte-level operations
    of the Go standard library are modelled on the character list of the
    string (UTF-8 is order- and substring-compatible with the code-point
    sequence, and every string the program manipulates here is ASCII).
  - Go maps (path to record) are modelled as association lists; map
    iteration order is modelled by quantifying over permutations where a
    claim depends on it.
  - Machine integers (int64, int) are modelled as Int, and fs.FileMode
    (uint32) as Nat; the code only compares these for equality or order,
    and never overflows them.
  - time.Time values are modelled as abstract instants (Int); the Go code
    compares them only with Equal and renders them with Format.
  - The external xxhash library is modelled as an unconstrained digest
    parameter: every theorem about the root digest holds for an arbitrary
    deterministic digest function of the written byte sequence.
-/

namespace Fsdiff

/-- FileRecord from the snapshot package: one entry per filesystem object
(fields Path, Hash, Size, Mode, ModTime, IsDir, UID, GID). -/
structure FileRecord where
  path : String
  hash : String
  size : Int
  mode : Nat
  modTime : Int
  isDir : Bool
  uid : Int
  gid : Int
  deriving DecidableEq, Repr

/-- Snapshot as consumed by the differ: the Files map (association list),
the MerkleRoot value, and whether the Tree field is non-nil.  SystemInfo
and Stats are not consulted by any function modelled here. -/
structure Snapshot where
  files : List (String × FileRecord)
  merkleRoot : Nat
  hasTree : Bool
  deriving DecidableEq, Repr

/-- ChangeDetail from diff.go: the old and new records of a modified path
and the list of human-readable change tags. -/
structure ChangeDetail where
  oldRecord : FileRecord
  newRecord : FileRecord
  changes : List String
  deriving DecidableEq, Repr

/-- Result of Differ.Compare restricted to the three change maps
(Baseline, Current, Summary and Generated carry no classification
information). -/
structure DiffResult where
  added : List (String × FileRecord)
  modified : List (String × ChangeDetail)
  deleted : List (String × FileRecord)
  deriving DecidableEq, Repr

/-- ChangeType from diff.go ("added", "modified", "deleted"). -/
inductive ChangeType where
  | added
  | modified
  | deleted
  deriving DecidableEq, Repr

/-- string(changeType): the underlying string of a ChangeType value. -/
def changeTypeString : ChangeType → String
  | ChangeType.added => "added"
  | ChangeType.modified => "modified"
  | ChangeType.deleted => "deleted"

/-! ### String primitives of the Go standard library, on character lists -/

/-- strings.HasPrefix, on character lists: isPrefixB pre l is true iff pre
is a prefix of l. -/
def isPrefixB : List Char → List Char → Bool
  | [], _ => true
  | _ :: _, [] => false
  | a :: as, b :: bs => a == b && isPrefixB as bs

/-- strings.Contains on character lists: isSubstrB sub l is true iff sub
occurs contiguously in l. -/
def isSubstrB (sub : List Char) : List Char → Bool
  | [] => sub.isEmpty
  | c :: rest => isPrefixB sub (c :: rest) || isSubstrB sub rest

/-- strings.HasPrefix(s, pre). -/
def hasPrefixStr (s pre : String) : Bool := isPrefixB pre.toList s.toList

/-- strings.HasSuffix(s, suf). -/
def hasSuffixStr (s suf : String) : Bool :=
  isPrefixB suf.toList.reverse s.toList.reverse

/-- strings.Contains(s, sub). -/
def containsStr (s sub : String) : Bool := isSubstrB sub.toList s.toList

/-- strings.Split on a single separator character, on character lists. -/
def splitChars (sep : Char) : List Char → List (List Char)
  | [] => [[]]
  | c :: rest =>
    let r := splitChars sep rest
    if c = sep then [] :: r
    else
      match r with
      | h :: t => (c :: h) :: t
      | [] => [[c]]

/-- strings.Split(path, string(filepath.Separator)) with Separator '/'. -/
def splitOnSlash (s : String) : List String :=
  (splitChars '/' s.toList).map String.mk

/-- Helper for filepath.Base: strip trailing separators. -/
def dropTrailingSep (l : List Char) : List Char :=
  (l.reverse.dropWhile (fun c => c = '/')).reverse

/-- Helper for filepath.Base: the characters after the last separator
(the whole list when it has no separator). -/
def afterLastSep (l : List Char) : List Char :=
  (l.reverse.takeWhile (fun c => c != '/')).reverse

/-- filepath.Base: the last element of the path; "." for the empty path,
"/" when the path consists of separators only. -/
def filepathBase (path : String) : String :=
  if path = "" then "."
  else
    let stripped := dropTrailingSep path.toList
    let base := afterLastSep stripped
    if base.isEmpty then "/" else String.mk base

/-! ### filepath.Match (glob matching), ported chunk for chunk

The port follows Go path/filepath/match.go: scanChunk splits the pattern
into a leading star and a literal chunk, matchChunk matches one chunk
against the head of the name (carrying a failed flag so that malformed
patterns are still detected after a mismatch), and goMatch drives the
chunk loop with the star backtracking loop.  Errors (malformed patterns)
are collapsed to a non-match, which is observationally what every caller
in the repository does with them (matched, _ := filepath.Match(...)). -/

/-- Body of Go scanChunk after the leading stars are stripped: cut the
pattern at the first star that is outside a character class, keeping
backslash escapes intact.  Returns the chunk and the rest. -/
def scanChunkCore : List Char → Bool → List Char × List Char
  | [], _ => ([], [])
  | '\\' :: c2 :: rest, inrange =>
    let r := scanChunkCore rest inrange
    ('\\' :: c2 :: r.1, r.2)
  | ['\\'], _ => (['\\'], [])
  | '[' :: rest, _ =>
    let r := scanChunkCore rest true
    ('[' :: r.1, r.2)
  | ']' :: rest, _ =>
    let r := scanChunkCore rest false
    (']' :: r.1, r.2)
  | '*' :: rest, inrange =>
    if inrange then
      let r := scanChunkCore rest true
      ('*' :: r.1, r.2)
    else ([], '*' :: rest)
  | c :: rest, inrange =>
    let r := scanChunkCore rest inrange
    (c :: r.1, r.2)

/-- Go scanChunk: strip leading stars, then scan one literal chunk. -/
def scanChunk (p : List Char) : Bool × List Char × List Char :=
  let p2 := p.dropWhile (fun c => c = '*')
  let star := decide (p2.length ≠ p.length)
  let r := scanChunkCore p2 false
  (star, r.1, r.2)

/-- Go getEsc: read one possibly-escaped character of a character class.
none models ErrBadPattern. -/
def getEsc : List Char → Option (Char × List Char)
  | [] => none
  | c :: cs =>
    if c = '-' ∨ c = ']' then none
    else
      match (if c = '\\' then cs else c :: cs) with
      | [] => none
      | r :: rest => if rest.isEmpty then none else some (r, rest)

/-- The range-parsing loop of the character-class case of Go matchChunk.
Returns none on a malformed pattern, otherwise whether the character
matched one of the ranges, together with the chunk after the class. -/
def matchClassRanges : Nat → List Char → Char → Bool → Nat → Option (Bool × List Char)
  | 0, _, _, _, _ => none
  | _fuel + 1, ']' :: rest, _r, m, _nrange + 1 => some (m, rest)
  | fuel + 1, chunk, r, m, nrange =>
    match getEsc chunk with
    | none => none
    | some (lo, chunk1) =>
      match
        (match chunk1 with
         | '-' :: chunk2 =>
           match getEsc chunk2 with
           | none => none
           | some (hi, chunk3) => some (hi, chunk3)
         | _ => some (lo, chunk1)) with
      | none => none
      | some (hi, chunkNext) =>
        matchClassRanges fuel chunkNext r
          (m || (decide (lo.val ≤ r.val) && decide (r.val ≤ hi.val))) (nrange + 1)

/-- Go matchChunk: match a literal chunk against the head of the name.
none models ErrBadPattern; some none models a failed match; some (some t)
models success with remaining name t.  The failed flag keeps the parse
going after a mismatch exactly as in the source. -/
def matchChunkCore : Nat → List Char → List Char → Bool → Option (Option (List Char))
  | 0, _, _, _ => none
  | fuel + 1, chunk, s, failed0 =>
    match chunk with
    | [] => if failed0 then some none else some (some s)
    | '[' :: chunkRest =>
      let failed := failed0 || s.isEmpty
      let rs : Char × List Char :=
        if failed then ('A', s)
        else
          match s with
          | [] => ('A', [])
          | x :: xs => (x, xs)
      let ng : Bool × List Char :=
        match chunkRest with
        | '^' :: t => (true, t)
        | _ => (false, chunkRest)
      match matchClassRanges (ng.2.length + 1) ng.2 rs.1 false 0 with
      | none => none
      | some (m, chunk2) =>
        matchChunkCore fuel chunk2 rs.2 (failed || (m == ng.1))
    | '?' :: chunkRest =>
      let failed := failed0 || s.isEmpty
      let fs : Bool × List Char :=
        if failed then (failed, s)
        else
          match s with
          | [] => (true, [])
          | x :: xs => (x = '/', xs)
      matchChunkCore fuel chunkRest fs.2 fs.1
    | '\\' :: chunkRest =>
      match chunkRest with
      | [] => none
      | c2 :: rest2 =>
        let failed := failed0 || s.isEmpty
        let fs : Bool × List Char :=
          if failed then (failed, s)
          else
            match s with
            | [] => (true, [])
            | x :: xs => (!(c2 == x), xs)
        matchChunkCore fuel rest2 fs.2 fs.1
    | c :: chunkRest =>
      let failed := failed0 || s.isEmpty
      let fs : Bool × List Char :=
        if failed then (failed, s)
        else
          match s with
          | [] => (true, [])
          | x :: xs => (!(c == x), xs)
      matchChunkCore fuel chunkRest fs.2 fs.1

/-- The star backtracking loop of Go Match: try to match the chunk at
each later byte offset of the name up to the next separator.  inl is a
final answer; inr t means continue the pattern loop with remaining name
t. -/
def starLoopCore (chunk rest : List Char) : List Char → Sum (Option Bool) (List Char)
  | [] => Sum.inl (some false)
  | c :: tailName =>
    if c = '/' then Sum.inl (some false)
    else
      match matchChunkCore (chunk.length + 1) chunk tailName false with
      | some (some t) =>
        if rest.isEmpty && !t.isEmpty then starLoopCore chunk rest tailName
        else Sum.inr t
      | none => Sum.inl (some false)
      | some none => starLoopCore chunk rest tailName

/-- Go filepath.Match chunk loop.  The fuel dominates the pattern length;
each iteration consumes at least one pattern character. -/
def goMatch : Nat → List Char → List Char → Option Bool
  | 0, _, _ => none
  | fuel + 1, pattern, name =>
    if pattern.isEmpty then some name.isEmpty
    else
      let sc := scanChunk pattern
      let star := sc.1
      let chunk := sc.2.1
      let rest := sc.2.2
      if star && chunk.isEmpty then some (!(name.contains '/'))
      else
        match matchChunkCore (chunk.length + 1) chunk name false with
        | some (some t) =>
          if t.isEmpty || !rest.isEmpty then goMatch fuel rest t
          else if star then
            match starLoopCore chunk rest name with
            | Sum.inl r => r
            | Sum.inr t2 => goMatch fuel rest t2
          else some false
        | none => some false
        | some none =>
          if star then
            match starLoopCore chunk rest name with
            | Sum.inl r => r
            | Sum.inr t2 => goMatch fuel rest t2
          else some false

/-- filepath.Match(pattern, name) with the error discarded, as every
caller in the repository does. -/
def filepathMatch (pattern name : String) : Bool :=
  match goMatch (pattern.toList.length + 1) pattern.toList name.toList with
  | some b => b
  | none => false

/-! ### The ignore-pattern matcher

matchPattern is textually identical in the scanner package and in the
diff package (PathIgnorer.matchPattern in both files); it is defined once
here and used by both ShouldIgnore variants. -/

/-- PathIgnorer.matchPattern: exact match, path-component match, glob
match on base name or full path (only when the pattern holds a star),
then prefix, suffix and substring match. -/
def matchPattern (path pattern : String) : Bool :=
  if path = pattern then true
  else if (splitOnSlash path).any (fun part => part == pattern) then true
  else if pattern.toList.contains '*' &&
      (filepathMatch pattern (filepathBase path) || filepathMatch pattern path) then true
  else if hasPrefixStr path pattern then true
  else if hasSuffixStr path pattern then true
  else if containsStr path pattern then true
  else false

/-- The built-in default ignore patterns of scanner.New. -/
def defaultIgnores : List String :=
  ["/proc", "/sys", "/dev", "/tmp", "/var/tmp", "/run", "/var/run",
   "/var/log", "/var/cache", "/var/lib/dhcp", "/var/lib/systemd",
   "/boot/grub", "/.cache", "node_modules", "*.log", "*.tmp",
   "/home/*/.cache", "/home/*/.local/share/Trash",
   "/home/*/.mozilla/firefox/*/Cache",
   "/home/*/.config/google-chrome/*/Cache",
   "/var/lib/docker/overlay2", "/var/lib/containerd",
   ".git", ".svn", ".hg", "__pycache__", ".pytest_cache",
   "*.pyc", "*.pyo", "*.swp", "*.bak", "*~"]

/-- The scanner PathIgnorer.ShouldIgnore: default patterns are checked
first, then the user-supplied patterns. -/
def scannerShouldIgnore (patterns : List String) (path : String) : Bool :=
  defaultIgnores.any (fun pattern => matchPattern path pattern) ||
    patterns.any (fun pattern => matchPattern path pattern)

/-- The diff PathIgnorer.ShouldIgnore: only the user-supplied patterns of
the diff Config are checked (the diff-side PathIgnorer has no defaults
field). -/
def diffShouldIgnore (patterns : List String) (path : String) : Bool :=
  patterns.any (fun pattern => matchPattern path pattern)

/-! ### Differ (diff.go) -/

/-- Differ.filesEqual: directories compare mode, modTime, UID, GID;
mixed kinds are unequal; files compare hash, size, mode, UID, GID
(modTime excluded). -/
def filesEqual (a b : FileRecord) : Bool :=
  if a.isDir && b.isDir then
    a.mode == b.mode && a.modTime == b.modTime && a.uid == b.uid && a.gid == b.gid
  else if a.isDir != b.isDir then false
  else
    a.hash == b.hash && a.size == b.size && a.mode == b.mode &&
      a.uid == b.uid && a.gid == b.gid

/-- fs.FileMode.String of the Go standard library: type letters from
"dalTLDpSugct?" for the high bits 31 down to 19, "-" when none is set,
then the nine rwx permission bits. -/
def modeString (m : Nat) : String :=
  let flags := (List.zip "dalTLDpSugct?".toList (List.range 13)).filterMap
    (fun ci => if Nat.land m (2 ^ (31 - ci.2)) ≠ 0 then some ci.1 else none)
  let head := if flags.isEmpty then ['-'] else flags
  let rwx := (List.zip "rwxrwxrwx".toList (List.range 9)).map
    (fun ci => if Nat.land m (2 ^ (8 - ci.2)) ≠ 0 then ci.1 else '-')
  String.mk (head ++ rwx)

/-- Rendering of a modification instant in a change tag.  The Go code
renders the time.Time with layout "2006-01-02 15:04:05"; instants are
modelled abstractly here, so the rendering is modelled by the decimal
numeral of the instant (like the Go layout, a deterministic rendering of
the instant).  No claim constrains the rendered text of a timestamp. -/
def timeString (t : Int) : String := toString t

/-- The "size (old → new)" tag of detectChanges. -/
def sizeTag (a b : Int) : String :=
  "size (" ++ toString a ++ " → " ++ toString b ++ ")"

/-- The "permissions (old → new)" tag of detectChanges. -/
def permTag (a b : Nat) : String :=
  "permissions (" ++ modeString a ++ " → " ++ modeString b ++ ")"

/-- The "mtime (old → new)" tag of detectChanges. -/
def mtimeTag (a b : Int) : String :=
  "mtime (" ++ timeString a ++ " → " ++ timeString b ++ ")"

/-- The "uid (old → new)" tag of detectChanges. -/
def uidTag (a b : Int) : String :=
  "uid (" ++ toString a ++ " → " ++ toString b ++ ")"

/-- The "gid (old → new)" tag of detectChanges. -/
def gidTag (a b : Int) : String :=
  "gid (" ++ toString a ++ " → " ++ toString b ++ ")"

/-- Differ.detectChanges: one tag per differing tracked field, in source
order; the bare "content" tag only when both hashes are non-empty; the
fallback tag "unknown" when no tag was produced. -/
def detectChanges (old new : FileRecord) : List String :=
  let changes :=
    (if old.hash ≠ new.hash ∧ old.hash ≠ "" ∧ new.hash ≠ "" then ["content"] else []) ++
    (if old.size ≠ new.size then [sizeTag old.size new.size] else []) ++
    (if old.mode ≠ new.mode then [permTag old.mode new.mode] else []) ++
    (if old.modTime ≠ new.modTime then [mtimeTag old.modTime new.modTime] else []) ++
    (if old.uid ≠ new.uid then [uidTag old.uid new.uid] else []) ++
    (if old.gid ≠ new.gid then [gidTag old.gid new.gid] else [])
  if changes.isEmpty then ["unknown"] else changes

/-- Go map lookup files[path] on the association-list model: the record
of the first pair with the given key. -/
def findRecord (files : List (String × FileRecord)) (path : String) : Option FileRecord :=
  match files with
  | [] => none
  | (p, r) :: rest => if p = path then some r else findRecord rest path

/-- The allPaths set of compareBruteForce: every path of either snapshot,
each once. -/
def unionPaths (baseline current : Snapshot) : List String :=
  (baseline.files.map Prod.fst ++ current.files.map Prod.fst).dedup

/-- Differ.compareBruteForce.  The Go loop walks the union of paths and
inserts each non-ignored path into exactly one of the three result maps
(or none, when the records are equal); each map is therefore the
restriction of the union to the corresponding branch condition. -/
def compareBruteForce (patterns : List String) (baseline current : Snapshot) : DiffResult :=
  let paths := unionPaths baseline current
  { added := paths.filterMap (fun path =>
      if diffShouldIgnore patterns path then none
      else
        match findRecord baseline.files path, findRecord current.files path with
        | none, some rc => some (path, rc)
        | _, _ => none),
    modified := paths.filterMap (fun path =>
      if diffShouldIgnore patterns path then none
      else
        match findRecord baseline.files path, findRecord current.files path with
        | some rb, some rc =>
          if filesEqual rb rc then none
          else some (path, { oldRecord := rb, newRecord := rc,
                             changes := detectChanges rb rc })
        | _, _ => none),
    deleted := paths.filterMap (fun path =>
      if diffShouldIgnore patterns path then none
      else
        match findRecord baseline.files path, findRecord current.files path with
        | some rb, none => some (path, rb)
        | _, _ => none) }

/-- Differ.Compare: when both snapshots carry a Merkle tree,
compareMerkleTrees short-circuits to the empty result on equal roots and
otherwise falls back to compareBruteForce; without both trees the brute
force comparison runs directly. -/
def Compare (patterns : List String) (baseline current : Snapshot) : DiffResult :=
  if baseline.hasTree ∧ current.hasTree then
    if baseline.merkleRoot = current.merkleRoot then
      { added := [], modified := [], deleted := [] }
    else compareBruteForce patterns baseline current
  else compareBruteForce patterns baseline current

/-! ### Critical-change detection (diff.go) -/

/-- CriticalChange from diff.go. -/
structure CriticalChange where
  path : String
  ctype : ChangeType
  record : FileRecord
  severity : Int
  reason : String
  deriving DecidableEq, Repr

/-- The criticalPaths list of Result.GetCriticalChanges. -/
def criticalPaths : List String :=
  ["/etc/passwd", "/etc/shadow", "/etc/sudoers", "/etc/hosts",
   "/bin/", "/sbin/", "/usr/bin/", "/usr/sbin/",
   "/boot/", "/etc/systemd/", "/etc/cron", "/etc/ssh/",
   "/.ssh/", "/root/", "/home/", "/etc/security/",
   "/lib/systemd/", "/usr/lib/systemd/", "/etc/init.d/"]

/-- The highSeverity list of calculateSeverity. -/
def highSeverity : List String :=
  ["/etc/passwd", "/etc/shadow", "/etc/sudoers",
   "/bin/", "/sbin/", "/usr/bin/", "/usr/sbin/",
   "/root/", "/.ssh/"]

/-- The mediumSeverity list of calculateSeverity. -/
def mediumSeverity : List String := ["/etc/", "/boot/", "/home/"]

/-- calculateSeverity: 9/8 for high-severity paths (one point lower for
deletion), 6/5 for medium-severity paths, 3 otherwise. -/
def calculateSeverity (path : String) (changeType : ChangeType) : Int :=
  if highSeverity.any (fun p => containsStr path p) then
    match changeType with
    | ChangeType.added => 9
    | ChangeType.modified => 9
    | ChangeType.deleted => 8
  else if mediumSeverity.any (fun p => containsStr path p) then
    match changeType with
    | ChangeType.added => 6
    | ChangeType.modified => 6
    | ChangeType.deleted => 5
  else 3

/-- explainCriticality: the human-readable reason for a critical
change. -/
def explainCriticality (path : String) (changeType : ChangeType) : String :=
  if containsStr path "/etc/passwd" then "User account database modified"
  else if containsStr path "/etc/shadow" then "Password hash database modified"
  else if containsStr path "/etc/sudoers" then "Sudo privileges configuration modified"
  else if containsStr path "/bin/" || containsStr path "/sbin/" then "System binary modified"
  else if containsStr path "/.ssh/" then "SSH configuration or keys modified"
  else if containsStr path "/root/" then "Root user directory modified"
  else if containsStr path "/etc/systemd/" then "Systemd service configuration modified"
  else if containsStr path "/etc/cron" then "Scheduled task configuration modified"
  else "Critical system path " ++ changeTypeString changeType

/-- The checkCritical closure of GetCriticalChanges: a path that contains
one of the criticalPaths substrings yields one CriticalChange (the loop
breaks after the first match, and the produced element does not depend on
which pattern matched). -/
def checkCritical (path : String) (changeType : ChangeType) (record : FileRecord) :
    Option CriticalChange :=
  if criticalPaths.any (fun p => containsStr path p) then
    some { path := path, ctype := changeType, record := record,
           severity := calculateSeverity path changeType,
           reason := explainCriticality path changeType }
  else none

/-- Descending-severity order used by the sort.Slice call of
GetCriticalChanges. -/
def severityGe (a b : CriticalChange) : Prop := b.severity ≤ a.severity

instance : DecidableRel severityGe := fun a b => Int.decLe b.severity a.severity

/-- Result.GetCriticalChanges: collect the critical matches of the added,
modified (new record) and deleted maps, then sort by descending
severity. -/
def getCriticalChanges (r : DiffResult) : List CriticalChange :=
  List.insertionSort severityGe
    (r.added.filterMap (fun pr => checkCritical pr.1 ChangeType.added pr.2) ++
      r.modified.filterMap (fun pc => checkCritical pc.1 ChangeType.modified pc.2.newRecord) ++
      r.deleted.filterMap (fun pr => checkCritical pr.1 ChangeType.deleted pr.2))

/-! ### Root digest (scanner.calculateSimpleMerkleRoot and the rolling
fold of ScanToFile) -/

/-- The byte-order comparison used by Go sort.Strings, on character
lists (UTF-8 byte order coincides with code-point order). -/
def lexLe : List Char → List Char → Bool
  | [], _ => true
  | _ :: _, [] => false
  | a :: as, b :: bs =>
    if a.toNat < b.toNat then true
    else if b.toNat < a.toNat then false
    else lexLe as bs

/-- sort.Strings order on String. -/
def strLe (a b : String) : Prop := lexLe a.toList b.toList = true

instance : DecidableRel strLe := fun a b => instDecidableEqBool (lexLe a.toList b.toList) true

/-- The allHashes list of calculateSimpleMerkleRoot: for every record of
the file map (in iteration order), its hash when non-empty and not the
"ERROR" sentinel, then always its path. -/
def allHashes (files : List FileRecord) : List String :=
  files.flatMap (fun record =>
    (if record.hash ≠ "" ∧ record.hash ≠ "ERROR" then [record.hash] else []) ++ [record.path])

/-- Scanner.calculateSimpleMerkleRoot: zero for an empty file map,
otherwise the digest of the sorted allHashes list.  The parameter xxh
models the external xxhash pipeline (write every string in order, then
Sum64 of the digest): an arbitrary deterministic function of the string
sequence.  sort.Strings is modelled by insertionSort under the byte
order. -/
def calculateSimpleMerkleRoot (xxh : List String → Nat) (files : List FileRecord) : Nat :=
  if files.isEmpty then 0
  else xxh (List.insertionSort strLe (allHashes files))

/-- The rolling Merkle computation of Scanner.ScanToFile:
rollingMerkleRoot starts at zero and XORs in merkle.HashRecord of every
collected record, in arrival order.  Modelled from the spec: the function
merkle.HashRecord itself is not part of the sources (only its caller is);
the spec describes the fold as a rolling XOR of per-record digests, so
the per-record digest is the parameter hashRecord. -/
def rollingMerkleRoot (hashRecord : FileRecord → Nat) (records : List FileRecord) : Nat :=
  records.foldl (fun acc r => Nat.xor acc (hashRecord r)) 0

/-! ### Scanner error handling (scanner.go worker / processFile /
resultCollector) -/

/-- fs.ModeDir of the Go standard library (bit 31 of a FileMode). -/
def modeDir : Nat := 2 ^ 31

/-- fs.ModeType: the type bits of a FileMode (dir, symlink, named pipe,
socket, device, char device, irregular). -/
def modeTypeMask : Nat :=
  Nat.lor (2 ^ 31) (Nat.lor (2 ^ 27) (Nat.lor (2 ^ 26)
    (Nat.lor (2 ^ 25) (Nat.lor (2 ^ 24) (Nat.lor (2 ^ 21) (2 ^ 19))))))

/-- FileMode.IsDir. -/
def modeIsDir (m : Nat) : Bool := Nat.land m modeDir ≠ 0

/-- FileMode.IsRegular. -/
def modeIsRegular (m : Nat) : Bool := Nat.land m modeTypeMask = 0

/-- The stat metadata of one directory entry, as returned by
job.Info.Info() together with the UID/GID of system.GetFileInfo. -/
structure FileMeta where
  size : Int
  mode : Nat
  modTime : Int
  uid : Int
  gid : Int
  deriving DecidableEq, Repr

/-- One FileJob together with the filesystem behaviour the scanner
observes for it: statResult models the outcome of job.Info.Info() (none
is a stat failure), and hashResult models the outcome of
Scanner.hashFile (none is a mid-file read error); hashResult is
consulted only for regular files of positive size. -/
structure FileJob where
  path : String
  statResult : Option FileMeta
  hashResult : Option String
  deriving DecidableEq, Repr

/-- FileResult from scanner.go: the produced record, and whether the
Error field is non-nil. -/
structure FileResult where
  record : Option FileRecord
  isError : Bool
  deriving DecidableEq, Repr

/-- Scanner.processFile: a stat failure yields an error result with no
record; otherwise a record is built from the metadata, and for a regular
file of positive size the hash is computed, a read error being recorded
as the sentinel digest "ERROR" with a nil result error. -/
def processFile (job : FileJob) : FileResult :=
  match job.statResult with
  | none => { record := none, isError := true }
  | some info =>
    let record : FileRecord :=
      { path := job.path, hash := "",
        size := info.size, mode := info.mode, modTime := info.modTime,
        isDir := modeIsDir info.mode, uid := info.uid, gid := info.gid }
    let record :=
      if modeIsRegular info.mode ∧ info.size > 0 then
        match job.hashResult with
        | none => { record with hash := "ERROR" }
        | some h => { record with hash := h }
      else record
    { record := some record, isError := false }

/-- The running state of one ScanFilesystem call: the collected file map
and the atomic counters. -/
structure ScanState where
  files : List (String × FileRecord)
  filesProcessed : Nat
  dirsProcessed : Nat
  bytesProcessed : Int
  errors : Nat
  deriving DecidableEq, Repr

/-- Go map assignment files[path] = record on the association-list
model. -/
def mapInsert (m : List (String × FileRecord)) (k : String) (v : FileRecord) :
    List (String × FileRecord) :=
  if (m.map Prod.fst).contains k then
    m.map (fun p => if p.1 = k then (k, v) else p)
  else m ++ [(k, v)]

/-- The combined effect of Scanner.worker (stats update) and
Scanner.resultCollector (map insert) on one FileResult: an error result
only increments the error counter and is not collected; a successful
result is inserted into the file map and counted as a file or a
directory. -/
def applyResult (st : ScanState) (res : FileResult) : ScanState :=
  if res.isError then { st with errors := st.errors + 1 }
  else
    match res.record with
    | none => st
    | some record =>
      let st := { st with files := mapInsert st.files record.path record }
      if record.isDir then { st with dirsProcessed := st.dirsProcessed + 1 }
      else { st with filesProcessed := st.filesProcessed + 1,
                     bytesProcessed := st.bytesProcessed + record.size }

/-- The empty scan state. -/
def initialScanState : ScanState :=
  { files := [], filesProcessed := 0, dirsProcessed := 0,
    bytesProcessed := 0, errors := 0 }

/-- Scanner.ScanFilesystem restricted to per-file processing: every
dispatched job is processed by processFile and folded into the state.
The second component models the error returned by ScanFilesystem, which
is the return value of filepath.WalkDir; the walk callback swallows every
per-entry error (it returns nil, or SkipDir for ignored directories), so
that returned error is always nil. -/
def scanFilesystem (jobs : List FileJob) : ScanState × Option String :=
  (jobs.foldl (fun st job => applyResult st (processFile job)) initialScanState, none)

/-! ### Helper lemmas -/

theorem findRecord_mem_keys {files : List (String × FileRecord)} {p : String}
    {r : FileRecord} (h : findRecord files p = some r) : p ∈ files.map Prod.fst := by
  induction files with
  | nil => simp [findRecord] at h
  | cons hd tl ih =>
    rw [findRecord] at h
    by_cases hp : hd.1 = p
    · simp [hp]
    · simp only [hp, if_false] at h
      simp [ih h]

theorem mem_keys_findRecord {files : List (String × FileRecord)} {p : String}
    (h : p ∈ files.map Prod.fst) : ∃ r, findRecord files p = some r := by
  induction files with
  | nil => simp at h
  | cons hd tl ih =>
    by_cases hp : hd.1 = p
    · exact ⟨hd.2, by rw [findRecord]; simp [hp]⟩
    · simp only [List.map_cons, List.mem_cons] at h
      rcases h with h | h
      · exact absurd h.symm hp
      · rcases ih h with ⟨r, hr⟩
        exact ⟨r, by rw [findRecord]; simp [hp, hr]⟩

theorem mem_unionPaths {b c : Snapshot} {p : String} :
    p ∈ unionPaths b c ↔ p ∈ b.files.map Prod.fst ∨ p ∈ c.files.map Prod.fst := by
  simp [unionPaths, List.mem_dedup, List.mem_append]

theorem filesEqual_refl (r : FileRecord) : filesEqual r r = true := by
  cases h : r.isDir <;> simp [filesEqual, h]

/-- The equality rule of filesEqual, spelled out: equal directories match
on mode, modTime, uid, gid; equal files match on hash, size, mode, uid,
gid; mixed kinds are never equal. -/
theorem filesEqual_iff (a b : FileRecord) :
    filesEqual a b = true ↔
      ((a.isDir = true ∧ b.isDir = true ∧ a.mode = b.mode ∧ a.modTime = b.modTime ∧
          a.uid = b.uid ∧ a.gid = b.gid) ∨
        (a.isDir = false ∧ b.isDir = false ∧ a.hash = b.hash ∧ a.size = b.size ∧
          a.mode = b.mode ∧ a.uid = b.uid ∧ a.gid = b.gid)) := by
  cases ha : a.isDir <;> cases hb : b.isDir <;>
    simp [filesEqual, ha, hb, and_assoc]

theorem mem_added_pair {patterns : List String} {b c : Snapshot} {p : String}
    {r : FileRecord} :
    (p, r) ∈ (compareBruteForce patterns b c).added ↔
      p ∈ unionPaths b c ∧ diffShouldIgnore patterns p = false ∧
        findRecord b.files p = none ∧ findRecord c.files p = some r := by
  simp only [compareBruteForce, List.mem_filterMap]
  constructor
  · rintro ⟨a, ha, hf⟩
    cases hig : diffShouldIgnore patterns a with
    | true => simp [hig] at hf
    | false =>
      cases hfb : findRecord b.files a <;> cases hfc : findRecord c.files a <;>
        simp [hig, hfb, hfc] at hf
      rcases hf with ⟨rfl, rfl⟩
      exact ⟨ha, hig, hfb, hfc⟩
  · rintro ⟨hmem, hig, hfb, hfc⟩
    exact ⟨p, hmem, by simp [hig, hfb, hfc]⟩

theorem mem_deleted_pair {patterns : List String} {b c : Snapshot} {p : String}
    {r : FileRecord} :
    (p, r) ∈ (compareBruteForce patterns b c).deleted ↔
      p ∈ unionPaths b c ∧ diffShouldIgnore patterns p = false ∧
        findRecord b.files p = some r ∧ findRecord c.files p = none := by
  simp only [compareBruteForce, List.mem_filterMap]
  constructor
  · rintro ⟨a, ha, hf⟩
    cases hig : diffShouldIgnore patterns a with
    | true => simp [hig] at hf
    | false =>
      cases hfb : findRecord b.files a <;> cases hfc : findRecord c.files a <;>
        simp [hig, hfb, hfc] at hf
      rcases hf with ⟨rfl, rfl⟩
      exact ⟨ha, hig, hfb, hfc⟩
  · rintro ⟨hmem, hig, hfb, hfc⟩
    exact ⟨p, hmem, by simp [hig, hfb, hfc]⟩

theorem mem_modified_pair {patterns : List String} {b c : Snapshot} {p : String}
    {cd : ChangeDetail} :
    (p, cd) ∈ (compareBruteForce patterns b c).modified ↔
      p ∈ unionPaths b c ∧ diffShouldIgnore patterns p = false ∧
        ∃ rb rc, findRecord b.files p = some rb ∧ findRecord c.files p = some rc ∧
          filesEqual rb rc = false ∧
          cd = { oldRecord := rb, newRecord := rc, changes := detectChanges rb rc } := by
  simp only [compareBruteForce, List.mem_filterMap]
  constructor
  · rintro ⟨a, ha, hf⟩
    cases hig : diffShouldIgnore patterns a with
    | true => simp [hig] at hf
    | false =>
      cases hfb : findRecord b.files a <;> cases hfc : findRecord c.files a <;>
        simp [hig, hfb, hfc] at hf
      rename_i rb rc
      cases heq : filesEqual rb rc with
      | true => simp [heq] at hf
      | false =>
        simp [heq] at hf
        rcases hf with ⟨rfl, rfl⟩
        exact ⟨ha, hig, rb, rc, hfb, hfc, heq, rfl⟩
  · rintro ⟨hmem, hig, rb, rc, hfb, hfc, heq, rfl⟩
    exact ⟨p, hmem, by simp [hig, hfb, hfc, heq]⟩

theorem mem_added_keys {patterns : List String} {b c : Snapshot} {p : String} :
    p ∈ (compareBruteForce patterns b c).added.map Prod.fst ↔
      p ∈ unionPaths b c ∧ diffShouldIgnore patterns p = false ∧
        findRecord b.files p = none ∧ ∃ r, findRecord c.files p = some r := by
  simp only [List.mem_map]
  constructor
  · rintro ⟨⟨q, r⟩, hqr, rfl⟩
    rcases mem_added_pair.mp hqr with ⟨h1, h2, h3, h4⟩
    exact ⟨h1, h2, h3, r, h4⟩
  · rintro ⟨h1, h2, h3, r, h4⟩
    exact ⟨(p, r), mem_added_pair.mpr ⟨h1, h2, h3, h4⟩, rfl⟩

theorem mem_deleted_keys {patterns : List String} {b c : Snapshot} {p : String} :
    p ∈ (compareBruteForce patterns b c).deleted.map Prod.fst ↔
      p ∈ unionPaths b c ∧ diffShouldIgnore patterns p = false ∧
        (∃ r, findRecord b.files p = some r) ∧ findRecord c.files p = none := by
  simp only [List.mem_map]
  constructor
  · rintro ⟨⟨q, r⟩, hqr, rfl⟩
    rcases mem_deleted_pair.mp hqr with ⟨h1, h2, h3, h4⟩
    exact ⟨h1, h2, ⟨r, h3⟩, h4⟩
  · rintro ⟨h1, h2, ⟨r, h3⟩, h4⟩
    exact ⟨(p, r), mem_deleted_pair.mpr ⟨h1, h2, h3, h4⟩, rfl⟩

theorem mem_modified_keys {patterns : List String} {b c : Snapshot} {p : String} :
    p ∈ (compareBruteForce patterns b c).modified.map Prod.fst ↔
      p ∈ unionPaths b c ∧ diffShouldIgnore patterns p = false ∧
        ∃ rb rc, findRecord b.files p = some rb ∧ findRecord c.files p = some rc ∧
          filesEqual rb rc = false := by
  simp only [List.mem_map]
  constructor
  · rintro ⟨⟨q, cd⟩, hqr, rfl⟩
    rcases mem_modified_pair.mp hqr with ⟨h1, h2, rb, rc, h3, h4, h5, _⟩
    exact ⟨h1, h2, rb, rc, h3, h4, h5⟩
  · rintro ⟨h1, h2, rb, rc, h3, h4, h5⟩
    exact ⟨(p, { oldRecord := rb, newRecord := rc, changes := detectChanges rb rc }),
      mem_modified_pair.mpr ⟨h1, h2, rb, rc, h3, h4, h5, rfl⟩, rfl⟩

/-- Compare with the two nested conditionals collapsed into one guard. -/
theorem Compare_eq (patterns : List String) (b c : Snapshot) :
    Compare patterns b c =
      if b.hasTree = true ∧ c.hasTree = true ∧ b.merkleRoot = c.merkleRoot then
        { added := [], modified := [], deleted := [] }
      else compareBruteForce patterns b c := by
  unfold Compare
  by_cases h1 : b.hasTree = true ∧ c.hasTree = true
  · by_cases h2 : b.merkleRoot = c.merkleRoot
    · simp [h1, h2]
    · simp [h1, h2]
  · rw [if_neg h1, if_neg (fun h => h1 ⟨h.1, h.2.1⟩)]

theorem lexLe_total : ∀ a b : List Char, lexLe a b = true ∨ lexLe b a = true := by
  intro a
  induction a with
  | nil => intro b; left; rfl
  | cons x xs ih =>
    intro b
    cases b with
    | nil => right; rfl
    | cons y ys =>
      by_cases h1 : x.toNat < y.toNat
      · left; simp [lexLe, h1]
      · by_cases h2 : y.toNat < x.toNat
        · right; simp [lexLe, h2]
        · rcases ih ys with h | h
          · left; simp [lexLe, h1, h2, h]
          · right; simp [lexLe, h1, h2, h]

theorem lexLe_trans : ∀ a b c : List Char,
    lexLe a b = true → lexLe b c = true → lexLe a c = true := by
  intro a
  induction a with
  | nil => intro b c _ _; rfl
  | cons x xs ih =>
    intro b c hab hbc
    cases b with
    | nil => simp [lexLe] at hab
    | cons y ys =>
      cases c with
      | nil => simp [lexLe] at hbc
      | cons z zs =>
        rw [lexLe] at hab hbc ⊢
        by_cases h1 : x.toNat < y.toNat <;> by_cases h2 : y.toNat < z.toNat
        · simp [Nat.lt_trans h1 h2]
        · simp only [h2, if_false] at hbc
          by_cases h3 : z.toNat < y.toNat
          · simp [h3] at hbc
          · have hxz : x.toNat < z.toNat := by omega
            simp [hxz]
        · simp only [h1, if_false] at hab
          by_cases h3 : y.toNat < x.toNat
          · simp [h3] at hab
          · have hxz : x.toNat < z.toNat := by omega
            simp [hxz]
        · simp only [h1, if_false] at hab
          simp only [h2, if_false] at hbc
          by_cases h3 : y.toNat < x.toNat
          · simp [h3] at hab
          · by_cases h4 : z.toNat < y.toNat
            · simp [h4] at hbc
            · simp only [h3, if_false] at hab
              simp only [h4, if_false] at hbc
              have hxz1 : ¬x.toNat < z.toNat := by omega
              have hxz2 : ¬z.toNat < x.toNat := by omega
              simp [hxz1, hxz2, ih ys zs hab hbc]

theorem lexLe_antisymm : ∀ a b : List Char,
    lexLe a b = true → lexLe b a = true → a = b := by
  intro a
  induction a with
  | nil =>
    intro b _ hba
    cases b with
    | nil => rfl
    | cons y ys => simp [lexLe] at hba
  | cons x xs ih =>
    intro b hab hba
    cases b with
    | nil => simp [lexLe] at hab
    | cons y ys =>
      rw [lexLe] at hab hba
      by_cases h1 : x.toNat < y.toNat
      · have : ¬y.toNat < x.toNat := by omega
        simp [h1, this] at hba
      · by_cases h2 : y.toNat < x.toNat
        · simp [h1, h2] at hab
        · simp only [h1, h2, if_false] at hab hba
          have h3 : x.toNat = y.toNat := by omega
          have hxy : x = y := Char.ext (UInt32.ext h3)
          rw [hxy, ih ys hab hba]

instance : IsTotal String strLe :=
  ⟨fun a b => lexLe_total a.toList b.toList⟩

instance : IsTrans String strLe :=
  ⟨fun a b c hab hbc => lexLe_trans a.toList b.toList c.toList hab hbc⟩

instance : IsAntisymm String strLe :=
  ⟨fun a b hab hba => String.ext (lexLe_antisymm a.toList b.toList hab hba)⟩

instance : IsTotal CriticalChange severityGe :=
  ⟨fun a b => (Int.le_total b.severity a.severity).elim Or.inl Or.inr⟩

instance : IsTrans CriticalChange severityGe :=
  ⟨fun _ _ _ hab hbc => le_trans hbc hab⟩

theorem nodup_keys_filterMap {β : Type} (f : String → Option (String × β))
    (hf : ∀ a x, f a = some x → x.1 = a) :
    ∀ l : List String, l.Nodup → ((l.filterMap f).map Prod.fst).Nodup := by
  intro l
  induction l with
  | nil => intro _; simp
  | cons a l ih =>
    intro hl
    rw [List.filterMap_cons]
    cases hfa : f a with
    | none => exact ih hl.of_cons
    | some x =>
      simp only [List.map_cons, List.nodup_cons]
      refine ⟨fun hx => ?_, ih hl.of_cons⟩
      simp only [List.mem_map, List.mem_filterMap] at hx
      rcases hx with ⟨y, ⟨q, hq, hfq⟩, hxy⟩
      have h1 : y.1 = q := hf q y hfq
      have h2 : x.1 = a := hf a x hfa
      rw [h2] at hxy
      rw [h1] at hxy
      rw [hxy] at hq
      exact (List.nodup_cons.mp hl).1 hq

theorem findRecord_replace (m : List (String × FileRecord)) (k : String) (v : FileRecord)
    (h : k ∈ m.map Prod.fst) :
    findRecord (m.map (fun p => if p.1 = k then (k, v) else p)) k = some v := by
  induction m with
  | nil => simp at h
  | cons hd tl ih =>
    by_cases hp : hd.1 = k
    · simp only [List.map_cons, hp, if_true]
      rw [findRecord]
      simp
    · simp only [List.map_cons, hp, if_false]
      rw [findRecord]
      simp only [hp, if_false]
      apply ih
      simp only [List.map_cons, List.mem_cons] at h
      rcases h with h | h
      · exact absurd h.symm hp
      · exact h

theorem findRecord_appendOne (m : List (String × FileRecord)) (k : String) (v : FileRecord) :
    findRecord (m ++ [(k, v)]) k = some v ∨ ∃ r, findRecord m k = some r := by
  induction m with
  | nil => left; simp [findRecord]
  | cons hd tl ih =>
    by_cases hp : hd.1 = k
    · right
      exact ⟨hd.2, by rw [findRecord]; simp [hp]⟩
    · rcases ih with h | h
      · left
        rw [List.cons_append, findRecord]
        simp [hp, h]
      · right
        rcases h with ⟨r, hr⟩
        exact ⟨r, by rw [findRecord]; simp [hp, hr]⟩

theorem findRecord_mapInsert (m : List (String × FileRecord)) (k : String) (v : FileRecord) :
    findRecord (mapInsert m k v) k = some v := by
  unfold mapInsert
  by_cases hc : (m.map Prod.fst).contains k
  · rw [if_pos hc]
    exact findRecord_replace m k v (by simpa using hc)
  · rw [if_neg hc]
    rcases findRecord_appendOne m k v with h | ⟨r, hr⟩
    · exact h
    · exact absurd (by simpa using findRecord_mem_keys hr) (by simpa using hc)

theorem calculateSeverity_cases (path : String) (t : ChangeType) :
    calculateSeverity path t = 9 ∨ calculateSeverity path t = 8 ∨
      calculateSeverity path t = 6 ∨ calculateSeverity path t = 5 ∨
      calculateSeverity path t = 3 := by
  unfold calculateSeverity
  by_cases h1 : highSeverity.any (fun p => containsStr path p) = true
  · cases t <;> simp [h1]
  · by_cases h2 : mediumSeverity.any (fun p => containsStr path p) = true
    · cases t <;> simp [h1, h2]
    · simp [h1, h2]

theorem mem_detectChanges_fallback {x : String} {l : List String} (h : x ∈ l) :
    x ∈ (if l.isEmpty then ["unknown"] else l) := by
  cases l with
  | nil => simp at h
  | cons a l => simpa using h

theorem ite_fallback_ne_nil (l : List String) : (if l.isEmpty then ["unknown"] else l) ≠ [] := by
  cases l <;> simp

theorem detectChanges_ne_nil (old new : FileRecord) : detectChanges old new ≠ [] := by
  unfold detectChanges
  exact ite_fallback_ne_nil _

/-! ### Concrete fixtures used to instantiate the theorems -/

/-- A plain regular-file record. -/
def recA : FileRecord := ⟨"/a", "h1", 1, 420, 7, false, 0, 0⟩

/-- recA with a different content digest. -/
def recA2 : FileRecord := ⟨"/a", "h2", 1, 420, 7, false, 0, 0⟩

/-- A second regular-file record, under another path. -/
def recB : FileRecord := ⟨"/b", "h2", 2, 420, 7, false, 0, 0⟩

/-- A snapshot with a Merkle tree and root digest 5. -/
def snapTreeA : Snapshot := ⟨[("/a", recA)], 5, true⟩

/-- An empty snapshot with a Merkle tree and root digest 5. -/
def snapTreeEmpty : Snapshot := ⟨[], 5, true⟩

/-- A snapshot with no Merkle tree holding recA. -/
def snapPlainA : Snapshot := ⟨[("/a", recA)], 1, false⟩

/-- A snapshot with no Merkle tree holding recA2. -/
def snapPlainA2 : Snapshot := ⟨[("/a", recA2)], 2, false⟩

/-- The empty snapshot with no Merkle tree. -/
def snapEmpty : Snapshot := ⟨[], 0, false⟩

/-! ### The claims -/

/-- C1: when both snapshots carry a Merkle tree and the two root digests
are equal, Compare returns a Result whose added, modified and deleted
maps are all empty; and Compare of any snapshot with itself yields empty
added, modified and deleted maps. -/
theorem claim_C1 (patterns : List String) (b c a : Snapshot) :
    (b.hasTree = true → c.hasTree = true → b.merkleRoot = c.merkleRoot →
      (Compare patterns b c).added = [] ∧ (Compare patterns b c).modified = [] ∧
        (Compare patterns b c).deleted = []) ∧
    ((Compare patterns a a).added = [] ∧ (Compare patterns a a).modified = [] ∧
      (Compare patterns a a).deleted = []) := by
  constructor
  · intro hb hc hr
    rw [Compare_eq, if_pos ⟨hb, hc, hr⟩]
    exact ⟨rfl, rfl, rfl⟩
  · rw [Compare_eq]
    by_cases h : a.hasTree = true ∧ a.hasTree = true ∧ a.merkleRoot = a.merkleRoot
    · rw [if_pos h]
      exact ⟨rfl, rfl, rfl⟩
    · rw [if_neg h]
      refine ⟨?_, ?_, ?_⟩ <;>
      · simp only [compareBruteForce]
        rw [List.filterMap_eq_nil_iff]
        intro p _
        by_cases hig : diffShouldIgnore patterns p = true
        · simp [hig]
        · cases hfa : findRecord a.files p <;> simp [hig, hfa, filesEqual_refl]

theorem claim_C1_witness :
    ((Compare [] snapTreeA snapTreeEmpty).added = [] ∧
      (Compare [] snapTreeA snapTreeEmpty).modified = [] ∧
      (Compare [] snapTreeA snapTreeEmpty).deleted = []) ∧
    ((Compare [] snapPlainA snapPlainA).added = [] ∧
      (Compare [] snapPlainA snapPlainA).modified = [] ∧
      (Compare [] snapPlainA snapPlainA).deleted = []) :=
  ⟨(claim_C1 [] snapTreeA snapTreeEmpty snapEmpty).1 rfl rfl rfl,
    (claim_C1 [] snapEmpty snapEmpty snapPlainA).2⟩

/-- C2: outside the root-digest fast path, a non-ignored path present in
both snapshots is classified as modified exactly when the two records
are unequal under the rule: directory records are equal iff mode,
modTime, uid and gid match; file records are equal iff hash, size, mode,
uid and gid match (modTime excluded); records of different kinds are
unequal. -/
theorem claim_C2 (patterns : List String) (b c : Snapshot) (p : String) (rb rc : FileRecord)
    (hfast : ¬(b.hasTree = true ∧ c.hasTree = true ∧ b.merkleRoot = c.merkleRoot))
    (hb : findRecord b.files p = some rb) (hc : findRecord c.files p = some rc)
    (hig : diffShouldIgnore patterns p = false) :
    p ∈ (Compare patterns b c).modified.map Prod.fst ↔
      ¬((rb.isDir = true ∧ rc.isDir = true ∧ rb.mode = rc.mode ∧ rb.modTime = rc.modTime ∧
          rb.uid = rc.uid ∧ rb.gid = rc.gid) ∨
        (rb.isDir = false ∧ rc.isDir = false ∧ rb.hash = rc.hash ∧ rb.size = rc.size ∧
          rb.mode = rc.mode ∧ rb.uid = rc.uid ∧ rb.gid = rc.gid)) := by
  rw [Compare_eq, if_neg hfast, mem_modified_keys]
  constructor
  · rintro ⟨_, _, rb', rc', hb', hc', hne⟩ hcl
    rw [hb] at hb'
    rw [hc] at hc'
    obtain rfl := Option.some.inj hb'
    obtain rfl := Option.some.inj hc'
    have hne2 := (filesEqual_iff _ _).mpr hcl
    simp [hne] at hne2
  · intro hne
    refine ⟨mem_unionPaths.mpr (Or.inl (findRecord_mem_keys hb)), hig, rb, rc, hb, hc, ?_⟩
    cases heq : filesEqual rb rc
    · rfl
    · exact absurd ((filesEqual_iff rb rc).mp heq) hne

theorem claim_C2_witness :
    "/a" ∈ (Compare [] snapPlainA snapPlainA2).modified.map Prod.fst ↔
      ¬((recA.isDir = true ∧ recA2.isDir = true ∧ recA.mode = recA2.mode ∧
          recA.modTime = recA2.modTime ∧ recA.uid = recA2.uid ∧ recA.gid = recA2.gid) ∨
        (recA.isDir = false ∧ recA2.isDir = false ∧ recA.hash = recA2.hash ∧
          recA.size = recA2.size ∧ recA.mode = recA2.mode ∧ recA.uid = recA2.uid ∧
          recA.gid = recA2.gid)) :=
  claim_C2 [] snapPlainA snapPlainA2 "/a" recA recA2
    (by decide) (by decide) (by decide) (by decide)

/-- C3: the added, modified and deleted path sets of a Compare result
are pairwise disjoint, each path appears at most once in its map, every
reported path lies in the union of the two file maps and is not ignored,
and therefore every ignored path appears in none of the three maps. -/
theorem claim_C3 (patterns : List String) (b c : Snapshot) :
    (∀ p, ¬(p ∈ (Compare patterns b c).added.map Prod.fst ∧
        p ∈ (Compare patterns b c).modified.map Prod.fst)) ∧
    (∀ p, ¬(p ∈ (Compare patterns b c).added.map Prod.fst ∧
        p ∈ (Compare patterns b c).deleted.map Prod.fst)) ∧
    (∀ p, ¬(p ∈ (Compare patterns b c).modified.map Prod.fst ∧
        p ∈ (Compare patterns b c).deleted.map Prod.fst)) ∧
    (∀ p, (p ∈ (Compare patterns b c).added.map Prod.fst ∨
        p ∈ (Compare patterns b c).modified.map Prod.fst ∨
        p ∈ (Compare patterns b c).deleted.map Prod.fst) →
      (p ∈ b.files.map Prod.fst ∨ p ∈ c.files.map Prod.fst) ∧
        diffShouldIgnore patterns p = false) ∧
    ((Compare patterns b c).added.map Prod.fst).Nodup ∧
    ((Compare patterns b c).modified.map Prod.fst).Nodup ∧
    ((Compare patterns b c).deleted.map Prod.fst).Nodup := by
  rw [Compare_eq]
  by_cases h : b.hasTree = true ∧ c.hasTree = true ∧ b.merkleRoot = c.merkleRoot
  · rw [if_pos h]
    simp
  · rw [if_neg h]
    refine ⟨?_, ?_, ?_, ?_, ?_, ?_, ?_⟩
    · rintro p ⟨ha, hm⟩
      rcases mem_added_keys.mp ha with ⟨_, _, hbn, _⟩
      rcases mem_modified_keys.mp hm with ⟨_, _, rb, _, hbs, _⟩
      rw [hbn] at hbs
      exact Option.noConfusion hbs
    · rintro p ⟨ha, hd⟩
      rcases mem_added_keys.mp ha with ⟨_, _, hbn, _⟩
      rcases mem_deleted_keys.mp hd with ⟨_, _, ⟨rb, hbs⟩, _⟩
      rw [hbn] at hbs
      exact Option.noConfusion hbs
    · rintro p ⟨hm, hd⟩
      rcases mem_modified_keys.mp hm with ⟨_, _, _, rc', _, hcs, _⟩
      rcases mem_deleted_keys.mp hd with ⟨_, _, _, hcn⟩
      rw [hcn] at hcs
      exact Option.noConfusion hcs
    · rintro p (hp | hp | hp)
      · rcases mem_added_keys.mp hp with ⟨hu, hig, _⟩
        exact ⟨mem_unionPaths.mp hu, hig⟩
      · rcases mem_modified_keys.mp hp with ⟨hu, hig, _⟩
        exact ⟨mem_unionPaths.mp hu, hig⟩
      · rcases mem_deleted_keys.mp hp with ⟨hu, hig, _⟩
        exact ⟨mem_unionPaths.mp hu, hig⟩
    · simp only [compareBruteForce]
      apply nodup_keys_filterMap
      · intro a x hx
        by_cases hig : diffShouldIgnore patterns a = true
        · simp [hig] at hx
        · simp only [hig, Bool.false_eq_true, if_false] at hx
          split at hx
          · obtain rfl := Option.some.inj hx
            rfl
          · exact Option.noConfusion hx
      · exact List.nodup_dedup _
    · simp only [compareBruteForce]
      apply nodup_keys_filterMap
      · intro a x hx
        by_cases hig : diffShouldIgnore patterns a = true
        · simp [hig] at hx
        · simp only [hig, Bool.false_eq_true, if_false] at hx
          split at hx
          · split at hx
            · exact Option.noConfusion hx
            · obtain rfl := Option.some.inj hx
              rfl
          · exact Option.noConfusion hx
      · exact List.nodup_dedup _
    · simp only [compareBruteForce]
      apply nodup_keys_filterMap
      · intro a x hx
        by_cases hig : diffShouldIgnore patterns a = true
        · simp [hig] at hx
        · simp only [hig, Bool.false_eq_true, if_false] at hx
          split at hx
          · obtain rfl := Option.some.inj hx
            rfl
          · exact Option.noConfusion hx
      · exact List.nodup_dedup _

theorem claim_C3_witness :
    ("/a" ∈ snapPlainA.files.map Prod.fst ∨ "/a" ∈ snapPlainA2.files.map Prod.fst) ∧
      diffShouldIgnore [] "/a" = false :=
  (claim_C3 [] snapPlainA snapPlainA2).2.2.2.1 "/a" (Or.inr (Or.inl (by decide)))

/-- C4: for a fixed record set, the full-set root digest (sort before
hashing) and the streaming rolling-XOR fold are invariant under every
permutation of the records, hence independent of traversal,
worker-scheduling, completion and map-iteration order, for any
per-record digest and any digest of the written string sequence. -/
theorem claim_C4 (xxh : List String → Nat) (hashRecord : FileRecord → Nat)
    (l1 l2 : List FileRecord) (h : l1.Perm l2) :
    calculateSimpleMerkleRoot xxh l1 = calculateSimpleMerkleRoot xxh l2 ∧
      rollingMerkleRoot hashRecord l1 = rollingMerkleRoot hashRecord l2 := by
  constructor
  · unfold calculateSimpleMerkleRoot
    by_cases hl : l2 = []
    · have hl1 : l1 = [] := (hl ▸ h).eq_nil
      rw [hl, hl1]
    · have hl1 : l1 ≠ [] := by
        intro e
        rw [e] at h
        exact hl h.symm.eq_nil
      rw [if_neg (by simp [List.isEmpty_iff]; exact hl1),
        if_neg (by simp [List.isEmpty_iff]; exact hl)]
      congr 1
      have hp : (allHashes l1).Perm (allHashes l2) := by
        unfold allHashes
        exact h.flatMap_right _
      exact List.eq_of_perm_of_sorted
        (((List.perm_insertionSort strLe _).trans hp).trans
          (List.perm_insertionSort strLe _).symm)
        (List.sorted_insertionSort strLe _) (List.sorted_insertionSort strLe _)
  · unfold rollingMerkleRoot
    haveI : RightCommutative (fun (acc : Nat) (r : FileRecord) => Nat.xor acc (hashRecord r)) :=
      ⟨fun bb a1 a2 => by
        show bb ^^^ hashRecord a1 ^^^ hashRecord a2 = bb ^^^ hashRecord a2 ^^^ hashRecord a1
        rw [Nat.xor_assoc, Nat.xor_assoc, Nat.xor_comm (hashRecord a1) (hashRecord a2)]⟩
    exact h.foldl_eq 0

theorem claim_C4_witness :
    calculateSimpleMerkleRoot List.length
        [⟨"/a", "h1", 1, 420, 7, false, 0, 0⟩, ⟨"/b", "h2", 2, 420, 7, false, 0, 0⟩] =
      calculateSimpleMerkleRoot List.length
        [⟨"/b", "h2", 2, 420, 7, false, 0, 0⟩, ⟨"/a", "h1", 1, 420, 7, false, 0, 0⟩] ∧
    rollingMerkleRoot (fun r => r.mode)
        [⟨"/a", "h1", 1, 420, 7, false, 0, 0⟩, ⟨"/b", "h2", 2, 420, 7, false, 0, 0⟩] =
      rollingMerkleRoot (fun r => r.mode)
        [⟨"/b", "h2", 2, 420, 7, false, 0, 0⟩, ⟨"/a", "h1", 1, 420, 7, false, 0, 0⟩] :=
  claim_C4 List.length (fun r => r.mode) _ _ (by decide)

/-- C5: under a fixed configuration, the added path set of Compare(A, B)
equals the deleted path set of Compare(B, A), and the deleted path set of
Compare(A, B) equals the added path set of Compare(B, A). -/
theorem claim_C5 (patterns : List String) (b c : Snapshot) (p : String) :
    (p ∈ (Compare patterns b c).added.map Prod.fst ↔
      p ∈ (Compare patterns c b).deleted.map Prod.fst) ∧
    (p ∈ (Compare patterns b c).deleted.map Prod.fst ↔
      p ∈ (Compare patterns c b).added.map Prod.fst) := by
  rw [Compare_eq patterns b c, Compare_eq patterns c b]
  by_cases h : b.hasTree = true ∧ c.hasTree = true ∧ b.merkleRoot = c.merkleRoot
  · rw [if_pos h, if_pos ⟨h.2.1, h.1, h.2.2.symm⟩]
    simp
  · rw [if_neg h, if_neg (fun h2 => h ⟨h2.2.1, h2.1, h2.2.2.symm⟩)]
    constructor
    · rw [mem_added_keys, mem_deleted_keys]
      constructor
      · rintro ⟨hm, hig, hn, r, hs⟩
        exact ⟨mem_unionPaths.mpr (mem_unionPaths.mp hm).symm, hig, ⟨r, hs⟩, hn⟩
      · rintro ⟨hm, hig, ⟨r, hs⟩, hn⟩
        exact ⟨mem_unionPaths.mpr (mem_unionPaths.mp hm).symm, hig, hn, r, hs⟩
    · rw [mem_deleted_keys, mem_added_keys]
      constructor
      · rintro ⟨hm, hig, ⟨r, hs⟩, hn⟩
        exact ⟨mem_unionPaths.mpr (mem_unionPaths.mp hm).symm, hig, hn, r, hs⟩
      · rintro ⟨hm, hig, hn, r, hs⟩
        exact ⟨mem_unionPaths.mpr (mem_unionPaths.mp hm).symm, hig, ⟨r, hs⟩, hn⟩

theorem claim_C5_witness :
    ("/a" ∈ (Compare [] snapPlainA snapEmpty).added.map Prod.fst ↔
      "/a" ∈ (Compare [] snapEmpty snapPlainA).deleted.map Prod.fst) ∧
    ("/a" ∈ (Compare [] snapPlainA snapEmpty).deleted.map Prod.fst ↔
      "/a" ∈ (Compare [] snapEmpty snapPlainA).added.map Prod.fst) :=
  claim_C5 [] snapPlainA snapEmpty "/a"

/-- checkCritical produces exactly the record built from
calculateSeverity and explainCriticality. -/
theorem checkCritical_some {p : String} {t : ChangeType} {rec : FileRecord}
    {e : CriticalChange} (h : checkCritical p t rec = some e) :
    e = ⟨p, t, rec, calculateSeverity p t, explainCriticality p t⟩ := by
  unfold checkCritical at h
  split at h
  · exact (Option.some.inj h).symm
  · exact Option.noConfusion h

/-- C6 (amended): the scan never returns an error; a stat failure
increments the error counter and collects no record; a mid-file hash
read error on a regular file of positive size yields a collected record
whose digest is the sentinel "ERROR" without touching the error counter;
and the scan processes every job of the list, so one failing job never
stops the processing of the remaining jobs. -/
theorem claim_C6 (jobs jobs2 : List FileJob) (st : ScanState) (job : FileJob)
    (info : FileMeta) :
    ((scanFilesystem jobs).2 = none) ∧
    (job.statResult = none →
      applyResult st (processFile job) = { st with errors := st.errors + 1 }) ∧
    (job.statResult = some info → modeIsRegular info.mode = true → info.size > 0 →
      job.hashResult = none →
      (applyResult st (processFile job)).errors = st.errors ∧
      ∃ r, findRecord (applyResult st (processFile job)).files job.path = some r ∧
        r.hash = "ERROR") ∧
    ((scanFilesystem (jobs ++ jobs2)).1 =
      jobs2.foldl (fun s j => applyResult s (processFile j)) (scanFilesystem jobs).1) := by
  refine ⟨rfl, ?_, ?_, ?_⟩
  · intro h
    simp [processFile, h, applyResult]
  · intro hs hreg hpos hh
    have hpf : processFile job =
        ⟨some ⟨job.path, "ERROR", info.size, info.mode, info.modTime,
          modeIsDir info.mode, info.uid, info.gid⟩, false⟩ := by
      unfold processFile
      rw [hs]
      simp [hh, hreg, hpos]
    rw [hpf]
    cases hdir : modeIsDir info.mode <;>
      simp [applyResult, hdir, findRecord_mapInsert]
  · simp only [scanFilesystem]
    exact List.foldl_append _ _ _ _

theorem claim_C6_witness :
    (applyResult initialScanState (processFile ⟨"/f", none, some "h"⟩) =
      { initialScanState with errors := initialScanState.errors + 1 }) ∧
    ((applyResult initialScanState (processFile ⟨"/g", some ⟨3, 420, 11, 1, 2⟩, none⟩)).errors =
        initialScanState.errors ∧
      ∃ r, findRecord
          (applyResult initialScanState (processFile ⟨"/g", some ⟨3, 420, 11, 1, 2⟩, none⟩)).files
          "/g" = some r ∧ r.hash = "ERROR") :=
  ⟨(claim_C6 [] [] initialScanState ⟨"/f", none, some "h"⟩ ⟨0, 0, 0, 0, 0⟩).2.1 rfl,
    (claim_C6 [] [] initialScanState ⟨"/g", some ⟨3, 420, 11, 1, 2⟩, none⟩
      ⟨3, 420, 11, 1, 2⟩).2.2.1 rfl (by decide) (by decide) rfl⟩

/-- C6 counterexample to the claim as stated: a mid-file hash read
failure on a regular file of positive size leaves stats.errorCount at
zero, although the claim asserts that every per-file stat or hash
failure increments stats.errorCount; the record is still collected with
the sentinel digest. -/
theorem claim_C6_cex :
    modeIsRegular 420 = true ∧ ((3 : Int) > 0) ∧
    (scanFilesystem [⟨"/g", some ⟨3, 420, 11, 1, 2⟩, none⟩]).1.errors = 0 ∧
    (∃ r, findRecord (scanFilesystem [⟨"/g", some ⟨3, 420, 11, 1, 2⟩, none⟩]).1.files "/g" =
        some r ∧ r.hash = "ERROR") :=
  ⟨by decide, by decide, by decide,
    ⟨⟨"/g", "ERROR", 3, 420, 11, false, 1, 2⟩, by decide, rfl⟩⟩

/-- C7: every critical change carries the tier-assigned severity
(9 for added or modified and 8 for deleted on the high tier; 6 and 5 on
the medium /etc, /boot, /home tier; 3 otherwise), every severity lies in
1..10, the returned list is sorted by descending severity, and an added
/etc/shadow path yields an entry of severity at least 8 whose reason
mentions password data. -/
theorem claim_C7 (r : DiffResult) :
    (∀ e ∈ getCriticalChanges r,
      (1 ≤ e.severity ∧ e.severity ≤ 10) ∧
        e.severity = calculateSeverity e.path e.ctype) ∧
    (∀ path, highSeverity.any (fun q => containsStr path q) = true →
      calculateSeverity path ChangeType.added = 9 ∧
        calculateSeverity path ChangeType.modified = 9 ∧
        calculateSeverity path ChangeType.deleted = 8) ∧
    (∀ path, highSeverity.any (fun q => containsStr path q) = false →
      mediumSeverity.any (fun q => containsStr path q) = true →
      calculateSeverity path ChangeType.added = 6 ∧
        calculateSeverity path ChangeType.modified = 6 ∧
        calculateSeverity path ChangeType.deleted = 5) ∧
    (∀ path t, highSeverity.any (fun q => containsStr path q) = false →
      mediumSeverity.any (fun q => containsStr path q) = false →
      calculateSeverity path t = 3) ∧
    List.Pairwise severityGe (getCriticalChanges r) ∧
    (∀ rec, ("/etc/shadow", rec) ∈ r.added →
      ∃ e ∈ getCriticalChanges r, e.path = "/etc/shadow" ∧ 8 ≤ e.severity ∧
        containsStr e.reason "Password" = true) := by
  refine ⟨?_, ?_, ?_, ?_, ?_, ?_⟩
  · intro e he
    unfold getCriticalChanges at he
    rw [(List.perm_insertionSort severityGe _).mem_iff] at he
    have hck : ∃ p t rec, checkCritical p t rec = some e := by
      simp only [List.mem_append, List.mem_filterMap] at he
      rcases he with (⟨⟨p, rec⟩, _, h⟩ | ⟨⟨p, cd⟩, _, h⟩) | ⟨⟨p, rec⟩, _, h⟩
      · exact ⟨p, ChangeType.added, rec, h⟩
      · exact ⟨p, ChangeType.modified, cd.newRecord, h⟩
      · exact ⟨p, ChangeType.deleted, rec, h⟩
    rcases hck with ⟨p, t, rec, h⟩
    have he2 := checkCritical_some h
    subst he2
    refine ⟨?_, rfl⟩
    show 1 ≤ calculateSeverity p t ∧ calculateSeverity p t ≤ 10
    rcases calculateSeverity_cases p t with h5 | h5 | h5 | h5 | h5 <;> rw [h5] <;>
      exact ⟨by decide, by decide⟩
  · intro path h
    refine ⟨?_, ?_, ?_⟩ <;> simp [calculateSeverity, h]
  · intro path h1 h2
    refine ⟨?_, ?_, ?_⟩ <;> simp [calculateSeverity, h1, h2]
  · intro path t h1 h2
    cases t <;> simp [calculateSeverity, h1, h2]
  · exact List.sorted_insertionSort severityGe _
  · intro rec hmem
    have hc : checkCritical "/etc/shadow" ChangeType.added rec =
        some ⟨"/etc/shadow", ChangeType.added, rec, 9, "Password hash database modified"⟩ := by
      unfold checkCritical
      rw [if_pos (by decide)]
      have h9 : calculateSeverity "/etc/shadow" ChangeType.added = 9 := by decide
      have hr : explainCriticality "/etc/shadow" ChangeType.added =
          "Password hash database modified" := by decide
      rw [h9, hr]
    refine ⟨⟨"/etc/shadow", ChangeType.added, rec, 9, "Password hash database modified"⟩,
      ?_, rfl, show (8 : Int) ≤ 9 by decide,
      show containsStr "Password hash database modified" "Password" = true by decide⟩
    unfold getCriticalChanges
    rw [(List.perm_insertionSort severityGe _).mem_iff]
    simp only [List.mem_append, List.mem_filterMap]
    exact Or.inl (Or.inl ⟨("/etc/shadow", rec), hmem, hc⟩)

theorem claim_C7_witness :
    (∃ e ∈ getCriticalChanges ⟨[("/etc/shadow", recA)], [], []⟩,
      e.path = "/etc/shadow" ∧ 8 ≤ e.severity ∧ containsStr e.reason "Password" = true) ∧
    (calculateSeverity "/etc/shadow" ChangeType.added = 9 ∧
      calculateSeverity "/etc/shadow" ChangeType.modified = 9 ∧
      calculateSeverity "/etc/shadow" ChangeType.deleted = 8) :=
  ⟨(claim_C7 ⟨[("/etc/shadow", recA)], [], []⟩).2.2.2.2.2 recA (by decide),
    (claim_C7 ⟨[], [], []⟩).2.1 "/etc/shadow" (by decide)⟩

/-- C8 (amended): the scanner path filter always applies the built-in
default patterns in addition to the user-supplied ones — every path
matching a default pattern is ignored during scanning even with no user
patterns — while the diff-side path filter applies only the
user-supplied patterns, so with no user patterns it ignores nothing. -/
theorem claim_C8 (userPatterns : List String) (path pattern : String)
    (hmem : pattern ∈ defaultIgnores) (hmatch : matchPattern path pattern = true) :
    scannerShouldIgnore userPatterns path = true ∧
      (∀ q, diffShouldIgnore [] q = false) := by
  constructor
  · unfold scannerShouldIgnore
    have h : defaultIgnores.any (fun pat => matchPattern path pat) = true :=
      List.any_eq_true.mpr ⟨pattern, hmem, hmatch⟩
    rw [h, Bool.true_or]
  · intro q
    rfl

theorem claim_C8_witness :
    scannerShouldIgnore ["custom"] "/proc/cpuinfo" = true ∧
      (∀ q, diffShouldIgnore [] q = false) :=
  claim_C8 ["custom"] "/proc/cpuinfo" "/proc" (by decide) (by decide)

/-- C8 counterexample to the claim as stated: the path /proc/cpuinfo
matches the built-in default pattern /proc, and the scanner filter
ignores it with no user patterns, but the diff-side filter use of the
path filter does not apply the defaults and keeps the path. -/
theorem claim_C8_cex :
    "/proc" ∈ defaultIgnores ∧ matchPattern "/proc/cpuinfo" "/proc" = true ∧
    scannerShouldIgnore [] "/proc/cpuinfo" = true ∧
    diffShouldIgnore [] "/proc/cpuinfo" = false := by
  decide

/-- The content tag of detectChanges, under its guard. -/
theorem mem_detect_content {old new : FileRecord}
    (h : old.hash ≠ new.hash ∧ old.hash ≠ "" ∧ new.hash ≠ "") :
    "content" ∈ detectChanges old new := by
  unfold detectChanges
  apply mem_detectChanges_fallback
  simp [h]

/-- The size tag of detectChanges, under its guard. -/
theorem mem_detect_size {old new : FileRecord} (h : old.size ≠ new.size) :
    sizeTag old.size new.size ∈ detectChanges old new := by
  unfold detectChanges
  apply mem_detectChanges_fallback
  simp [h]

/-- The permissions tag of detectChanges, under its guard. -/
theorem mem_detect_mode {old new : FileRecord} (h : old.mode ≠ new.mode) :
    permTag old.mode new.mode ∈ detectChanges old new := by
  unfold detectChanges
  apply mem_detectChanges_fallback
  simp [h]

/-- The mtime tag of detectChanges, under its guard. -/
theorem mem_detect_mtime {old new : FileRecord} (h : old.modTime ≠ new.modTime) :
    mtimeTag old.modTime new.modTime ∈ detectChanges old new := by
  unfold detectChanges
  apply mem_detectChanges_fallback
  simp [h]

/-- The uid tag of detectChanges, under its guard. -/
theorem mem_detect_uid {old new : FileRecord} (h : old.uid ≠ new.uid) :
    uidTag old.uid new.uid ∈ detectChanges old new := by
  unfold detectChanges
  apply mem_detectChanges_fallback
  simp [h]

/-- The gid tag of detectChanges, under its guard. -/
theorem mem_detect_gid {old new : FileRecord} (h : old.gid ≠ new.gid) :
    gidTag old.gid new.gid ∈ detectChanges old new := by
  unfold detectChanges
  apply mem_detectChanges_fallback
  simp [h]

/-- When no tag guard holds, detectChanges collapses to the fallback. -/
theorem detectChanges_unknown {old new : FileRecord}
    (h1 : ¬(old.hash ≠ new.hash ∧ old.hash ≠ "" ∧ new.hash ≠ ""))
    (h2 : old.size = new.size) (h3 : old.mode = new.mode)
    (h4 : old.modTime = new.modTime) (h5 : old.uid = new.uid) (h6 : old.gid = new.gid) :
    detectChanges old new = ["unknown"] := by
  unfold detectChanges
  simp [h1, h2, h3, h4, h5, h6]

/-- C9 (amended): for every path reported as modified, the ChangeDetail
carries exactly the detectChanges list of its two records; that list is
never empty; each differing tracked field among size, permissions,
mtime, uid and gid contributes its old-to-new tag; a content difference
contributes the bare tag "content" only when both digests are non-empty;
and when no tag guard holds the list is exactly ["unknown"], so an
unequal pair is never silently dropped. -/
theorem claim_C9 (patterns : List String) (b c : Snapshot) (p : String) (cd : ChangeDetail)
    (hmem : (p, cd) ∈ (Compare patterns b c).modified) :
    cd.changes = detectChanges cd.oldRecord cd.newRecord ∧
    cd.changes ≠ [] ∧
    (cd.oldRecord.hash ≠ cd.newRecord.hash ∧ cd.oldRecord.hash ≠ "" ∧
        cd.newRecord.hash ≠ "" → "content" ∈ cd.changes) ∧
    (cd.oldRecord.size ≠ cd.newRecord.size →
      sizeTag cd.oldRecord.size cd.newRecord.size ∈ cd.changes) ∧
    (cd.oldRecord.mode ≠ cd.newRecord.mode →
      permTag cd.oldRecord.mode cd.newRecord.mode ∈ cd.changes) ∧
    (cd.oldRecord.modTime ≠ cd.newRecord.modTime →
      mtimeTag cd.oldRecord.modTime cd.newRecord.modTime ∈ cd.changes) ∧
    (cd.oldRecord.uid ≠ cd.newRecord.uid →
      uidTag cd.oldRecord.uid cd.newRecord.uid ∈ cd.changes) ∧
    (cd.oldRecord.gid ≠ cd.newRecord.gid →
      gidTag cd.oldRecord.gid cd.newRecord.gid ∈ cd.changes) ∧
    (¬(cd.oldRecord.hash ≠ cd.newRecord.hash ∧ cd.oldRecord.hash ≠ "" ∧
          cd.newRecord.hash ≠ "") →
      cd.oldRecord.size = cd.newRecord.size → cd.oldRecord.mode = cd.newRecord.mode →
      cd.oldRecord.modTime = cd.newRecord.modTime → cd.oldRecord.uid = cd.newRecord.uid →
      cd.oldRecord.gid = cd.newRecord.gid → cd.changes = ["unknown"]) := by
  have hch : cd.changes = detectChanges cd.oldRecord cd.newRecord := by
    rw [Compare_eq] at hmem
    by_cases h : b.hasTree = true ∧ c.hasTree = true ∧ b.merkleRoot = c.merkleRoot
    · rw [if_pos h] at hmem
      exact absurd hmem (List.not_mem_nil _)
    · rw [if_neg h] at hmem
      rcases mem_modified_pair.mp hmem with ⟨_, _, rb, rc, _, _, _, rfl⟩
      rfl
  rw [hch]
  exact ⟨rfl, detectChanges_ne_nil _ _, mem_detect_content, mem_detect_size,
    mem_detect_mode, mem_detect_mtime, mem_detect_uid, mem_detect_gid,
    fun h1 h2 h3 h4 h5 h6 => detectChanges_unknown h1 h2 h3 h4 h5 h6⟩

theorem claim_C9_witness :
    (⟨recA, recA2, ["content"]⟩ : ChangeDetail).changes ≠ [] ∧
    "content" ∈ (⟨recA, recA2, ["content"]⟩ : ChangeDetail).changes :=
  ⟨(claim_C9 [] snapPlainA snapPlainA2 "/a" ⟨recA, recA2, ["content"]⟩ (by decide)).2.1,
    (claim_C9 [] snapPlainA snapPlainA2 "/a" ⟨recA, recA2, ["content"]⟩
      (by decide)).2.2.1 (by decide)⟩

/-- C9 counterexample to the claim as stated: two records that differ
only in their (both non-empty) content digests yield the changes list
["content"], whose only tag carries no old-to-new rendering — the claim
asserts an old-to-new rendering for every differing tracked field,
content included. -/
theorem claim_C9_cex :
    detectChanges recA recA2 = ["content"] ∧ containsStr "content" "→" = false := by
  decide

/-- C10: swapping the content digests of two records changes the file
set but not the full-set root digest, for every digest function of the
sorted string list: the digest depends only on the combined multiset of
paths and eligible digests, not on which record carries which digest. -/
theorem claim_C10 (xxh : List String → Nat) :
    ([recA, recB] : List FileRecord) ≠
        [{ recA with hash := recB.hash }, { recB with hash := recA.hash }] ∧
    calculateSimpleMerkleRoot xxh [recA, recB] =
      calculateSimpleMerkleRoot xxh
        [{ recA with hash := recB.hash }, { recB with hash := recA.hash }] := by
  constructor
  · decide
  · unfold calculateSimpleMerkleRoot
    rw [if_neg (by decide), if_neg (by decide)]
    congr 1

theorem claim_C10_witness :
    ([recA, recB] : List FileRecord) ≠
        [{ recA with hash := recB.hash }, { recB with hash := recA.hash }] ∧
    calculateSimpleMerkleRoot List.length [recA, recB] =
      calculateSimpleMerkleRoot List.length
        [{ recA with hash := recB.hash }, { recB with hash := recA.hash }] :=
  claim_C10 List.length

end Fsdiff
